import Mathlib

/-!
# Verification of the htrc-feature-reader identifier-resolution and storage layer

This file gives a shallow embedding, in Lean 4, of the identifier-encoding,
path-sharding, filename, decompression, HTTP, and fallback/cache-resolver
logic of the `htrc_features` package (files `utils.py`, `resolvers.py`,
`caching.py`), together with theorems about the embedded definitions.

Modelling conventions:
* Python strings are modelled as `List Char`; `str.replace` with one-character
  patterns is a character map; `str.split('.', 1)` is `splitOnce`;
  `".".join(...)` is `joinDot`; `os.path.join` is `osPathJoin`.
* Python exceptions are an inductive type `PyErr`; fallible code returns
  `Except PyErr α`.  A Python function that can implicitly return `None`
  returns an `Option`.
* Resource contents are opaque byte lists (`List Nat`); the schema-specific
  parsers that interpret those bytes are outside the modelled core, so
  copying a volume between resolvers is modelled as its net byte transfer.
* Stateful storage backends are modelled as explicit state passing: a
  `Resolver σ` carries read/write operations over a store state `σ`.
-/

namespace HtrcFeatures

/-- The Python exception classes that the modelled code raises or
distinguishes.  `fileNotFound` is `FileNotFoundError`, `missingData` is
`htrc_features.parsers.MissingDataError`, `httpError` is
`urllib.error.HTTPError` (an `OSError`/`IOError` subclass carrying a status
code), `assertionError` is a failed `assert`, and so on.  `conflict` models
the `Conflict` condition of the spec's archive backends. -/
inductive PyErr where
  | fileNotFound (msg : String)
  | missingData (msg : String)
  | httpError (code : Nat) (msg : String)
  | notImplementedError (msg : String)
  | assertionError (msg : String)
  | valueError (msg : String)
  | typeError (msg : String)
  | permissionError (msg : String)
  | conflict (msg : String)
  | keyError (msg : String)
  deriving DecidableEq, Repr

/-- The exception classes caught by `FallbackResolver.open`
(`except (MissingDataError, FileNotFoundError)` in `caching.py` line 76):
the "NotFound" condition class of the spec. -/
def isNotFoundClass : PyErr → Bool
  | .fileNotFound _ => true
  | .missingData _ => true
  | _ => false

/-! ## Identifier encoding (`utils.py`) -/

/-- One-character `str.replace`: every occurrence of `a` becomes `b`. -/
def pyReplace (s : List Char) (a b : Char) : List Char :=
  s.map fun c => if c = a then b else c

/-- `utils._id_encode`: `id.replace(":", "+").replace("/", "=").replace(".", ",")`. -/
def _id_encode (id : List Char) : List Char :=
  pyReplace (pyReplace (pyReplace id ':' '+') '/' '=') '.' ','

/-- `utils._id_decode`: `id.replace("+", ":").replace("=", "/").replace(",", ".")`. -/
def _id_decode (id : List Char) : List Char :=
  pyReplace (pyReplace (pyReplace id '+' ':') '=' '/') ',' '.'

/-- `s.split(sep, 1)` when it succeeds: the part before the first `sep` and
the part after it.  `none` when `sep` does not occur (in which case the
Python unpacking `a, b = s.split(sep, 1)` raises `ValueError`). -/
def splitOnce (sep : Char) : List Char → Option (List Char × List Char)
  | [] => none
  | c :: rest =>
    if c = sep then some ([], rest)
    else match splitOnce sep rest with
      | none => none
      | some (a, b) => some (c :: a, b)

/-- `utils.clean_htid`: split at the first `.` into `libid` and `volid`,
encode the volume part, and rejoin with `.`. -/
def clean_htid (htid : List Char) : Option (List Char) :=
  match splitOnce '.' htid with
  | none => none
  | some (libid, volid) => some (libid ++ '.' :: _id_encode volid)

/-! ### Basic facts about the encoding -/

/-- The single character map applied by `_id_encode`. -/
def encodeChar (c : Char) : Char :=
  if (if (if c = ':' then '+' else c) = '/' then '=' else (if c = ':' then '+' else c)) = '.'
  then ','
  else (if (if c = ':' then '+' else c) = '/' then '=' else (if c = ':' then '+' else c))

/-- The single character map applied by `_id_decode`. -/
def decodeChar (c : Char) : Char :=
  if (if (if c = '+' then ':' else c) = '=' then '/' else (if c = '+' then ':' else c)) = ','
  then '.'
  else (if (if c = '+' then ':' else c) = '=' then '/' else (if c = '+' then ':' else c))

theorem _id_encode_eq_map (s : List Char) : _id_encode s = s.map encodeChar := by
  simp only [_id_encode, pyReplace, List.map_map]
  apply List.map_congr_left
  intro c _
  simp only [Function.comp, encodeChar]

theorem _id_decode_eq_map (s : List Char) : _id_decode s = s.map decodeChar := by
  simp only [_id_decode, pyReplace, List.map_map]
  apply List.map_congr_left
  intro c _
  simp only [Function.comp, decodeChar]

/-- Characters that are not themselves encoding targets survive the
encode/decode round trip. -/
theorem decodeChar_encodeChar (c : Char)
    (h1 : c ≠ '+') (h2 : c ≠ '=') (h3 : c ≠ ',') :
    decodeChar (encodeChar c) = c := by
  by_cases hc : c = ':'
  · subst hc; rfl
  · by_cases hs : c = '/'
    · subst hs; rfl
    · by_cases hd : c = '.'
      · subst hd; rfl
      · simp only [encodeChar, decodeChar, if_neg hc, if_neg hs, if_neg hd,
          if_neg h1, if_neg h2, if_neg h3]

/-- The encoder never produces a `/` character (it rewrites `/` to `=` and no
rewrite produces `/`). -/
theorem encodeChar_ne_slash (c : Char) : encodeChar c ≠ '/' := by
  by_cases hc : c = ':'
  · subst hc; decide
  · by_cases hs : c = '/'
    · subst hs; decide
    · simp only [encodeChar, if_neg hc, if_neg hs]
      by_cases hd : c = '.'
      · simp [hd]
      · simp [if_neg hd, hd, hs]

theorem decodeChar_dot : decodeChar '.' = '.' := by decide

/-- `splitOnce` succeeds exactly on the split at the first separator. -/
theorem splitOnce_eq (sep : Char) :
    ∀ (s a b : List Char), splitOnce sep s = some (a, b) →
      s = a ++ sep :: b ∧ sep ∉ a
  | [], a, b => by intro h; simp [splitOnce] at h
  | c :: rest, a, b => by
    intro h
    by_cases hc : c = sep
    · subst hc
      simp [splitOnce] at h
      obtain ⟨ha, hb⟩ := h
      subst ha; subst hb
      exact ⟨rfl, List.not_mem_nil _⟩
    · simp only [splitOnce, if_neg hc] at h
      cases hrec : splitOnce sep rest with
      | none => rw [hrec] at h; simp at h
      | some p =>
        obtain ⟨a', b'⟩ := p
        rw [hrec] at h
        simp at h
        obtain ⟨ha, hb⟩ := h
        subst hb
        obtain ⟨h1, h2⟩ := splitOnce_eq sep rest a' b' hrec
        subst ha
        constructor
        · simp [h1]
        · intro hmem
          rcases List.mem_cons.mp hmem with h | h
          · exact hc h.symm
          · exact h2 h

/-- `splitOnce` on a list built as `a ++ sep :: b` with `sep ∉ a`
recovers `(a, b)`. -/
theorem splitOnce_append (sep : Char) :
    ∀ (a b : List Char), sep ∉ a → splitOnce sep (a ++ sep :: b) = some (a, b)
  | [], b => by intro _; simp [splitOnce]
  | c :: a', b => by
    intro h
    have hc : c ≠ sep := fun hh => h (hh ▸ List.mem_cons_self c a')
    have ha' : sep ∉ a' := fun hh => h (List.mem_cons_of_mem c hh)
    have hrec := splitOnce_append sep a' b ha'
    simp only [List.cons_append, splitOnce, if_neg hc]
    rw [show a' ++ sep :: b = a'.append (sep :: b) from rfl] at hrec
    rw [hrec]

theorem _id_decode_append (a b : List Char) :
    _id_decode (a ++ b) = _id_decode a ++ _id_decode b := by
  simp [_id_decode_eq_map]

theorem _id_decode_fixed (s : List Char)
    (h : ∀ c ∈ s, c ≠ '+' ∧ c ≠ '=' ∧ c ≠ ',') : _id_decode s = s := by
  induction s with
  | nil => rfl
  | cons c rest ih =>
    obtain ⟨h1, h2, h3⟩ := h c (List.mem_cons_self c rest)
    have ih' := ih fun x hx => h x (List.mem_cons_of_mem c hx)
    rw [_id_decode_eq_map, List.map_cons]
    rw [_id_decode_eq_map] at ih'
    rw [ih']
    simp only [decodeChar, if_neg h1, if_neg h2, if_neg h3]

theorem _id_decode_encode (s : List Char)
    (h : ∀ c ∈ s, c ≠ '+' ∧ c ≠ '=' ∧ c ≠ ',') :
    _id_decode (_id_encode s) = s := by
  induction s with
  | nil => rfl
  | cons c rest ih =>
    obtain ⟨h1, h2, h3⟩ := h c (List.mem_cons_self c rest)
    have ih' := ih fun x hx => h x (List.mem_cons_of_mem c hx)
    rw [_id_encode_eq_map, List.map_cons, _id_decode_eq_map, List.map_cons,
      decodeChar_encodeChar c h1 h2 h3]
    rw [_id_encode_eq_map, _id_decode_eq_map] at ih'
    rw [ih']

/-! ## Filenames (`IdResolver.fname`, `resolvers.py` lines 51-63) -/

/-- Python `".".join(parts)`. -/
def joinDot : List (List Char) → List Char
  | [] => []
  | [x] => x
  | x :: y :: rest => x ++ '.' :: joinDot (y :: rest)

/-- `IdResolver.fname(id, format, compression, suffix)`: encode the id with
`clean_htid`; for the `parquet` format the compression is dropped ("Because
it's not in the parquet filename"); then dot-join the non-`None` entries of
`[clean_id, suffix, format, compression]`.  `none` models the `ValueError`
raised by `clean_htid` on an id without a `.` separator. -/
def fname (id : List Char) (format compression suffix : Option (List Char)) :
    Option (List Char) :=
  match clean_htid id with
  | none => none
  | some clean_id =>
    some (joinDot (([some clean_id, suffix, format,
      if format = some ("parquet".toList) then none else compression].filterMap
        fun x => x)))

/-- The dot-prefixed segment an optional filename part contributes. -/
def optSeg : Option (List Char) → List Char
  | none => []
  | some s => '.' :: s

theorem optSeg_injective :
    ∀ {a b : Option (List Char)}, optSeg a = optSeg b → a = b := by
  intro a b h
  cases a <;> cases b <;> simp_all [optSeg]

theorem joinDot_opt (cid : List Char) (s f c : Option (List Char)) :
    joinDot ([some cid, s, f, c].filterMap fun x => x) =
      cid ++ optSeg s ++ optSeg f ++ optSeg c := by
  cases s <;> cases f <;> cases c <;> simp [joinDot, optSeg]

theorem fname_eq (id : List Char) (f c s : Option (List Char)) :
    fname id f c s = (clean_htid id).map fun cid =>
      cid ++ optSeg s ++ optSeg f ++
        optSeg (if f = some ("parquet".toList) then none else c) := by
  unfold fname
  cases clean_htid id with
  | none => rfl
  | some cid => exact congrArg some (joinDot_opt cid s f _)

/-- Helper for the format-sensitivity of `fname`: if a `parquet` filename tail
coincides with the tail for another format `f`, then `f` is `None` and the
compression is the literal string `"parquet"`. -/
theorem formatSeg_pq_case (f c : Option (List Char))
    (hf : f ≠ some ("parquet".toList))
    (h : optSeg (some ("parquet".toList)) ++ optSeg (none : Option (List Char))
       = optSeg f ++ optSeg c) :
    f = none ∧ c = some ("parquet".toList) := by
  cases f with
  | none =>
    cases c with
    | none => simp [optSeg] at h
    | some y =>
      refine ⟨rfl, ?_⟩
      simp only [optSeg, List.append_nil, List.nil_append] at h
      injection h with _ h2
      rw [h2]
  | some g =>
    exfalso
    cases c with
    | none =>
      simp only [optSeg, List.append_nil] at h
      injection h with _ h2
      exact hf (by rw [← h2])
    | some y =>
      simp only [optSeg, List.append_nil, List.cons_append] at h
      injection h with _ h2
      have hmem : '.' ∈ ("parquet".toList) := by
        rw [h2]; exact List.mem_append_right g (List.mem_cons_self '.' y)
      revert hmem
      decide

theorem formatSeg_eq (f1 f2 c : Option (List Char))
    (h : optSeg f1 ++ optSeg (if f1 = some ("parquet".toList) then none else c)
       = optSeg f2 ++ optSeg (if f2 = some ("parquet".toList) then none else c))
    (hbad : ¬(c = some ("parquet".toList) ∧
       ((f1 = some ("parquet".toList) ∧ f2 = none) ∨
        (f1 = none ∧ f2 = some ("parquet".toList))))) :
    f1 = f2 := by
  by_cases hp1 : f1 = some ("parquet".toList)
  · by_cases hp2 : f2 = some ("parquet".toList)
    · rw [hp1, hp2]
    · rw [hp1] at h
      rw [if_pos rfl, if_neg hp2] at h
      obtain ⟨hf2, hc⟩ := formatSeg_pq_case f2 c hp2 h
      exact absurd ⟨hc, Or.inl ⟨hp1, hf2⟩⟩ hbad
  · by_cases hp2 : f2 = some ("parquet".toList)
    · rw [hp2] at h
      rw [if_pos rfl, if_neg hp1] at h
      obtain ⟨hf1, hc⟩ := formatSeg_pq_case f1 c hp1 h.symm
      exact absurd ⟨hc, Or.inr ⟨hf1, hp2⟩⟩ hbad
    · rw [if_neg hp1, if_neg hp2] at h
      exact optSeg_injective (List.append_cancel_right h)

end HtrcFeatures

namespace HtrcFeatures

/-- **C5** (corrected).  For identifiers `x = lib ++ "." ++ vol` whose
volume-local part `vol` contains `:`, `/`, and at least two further `.`
characters, and which contain none of the encoding's own target characters
`+`, `=`, `,`, decoding the encoded identifier (`_id_decode` applied to
`clean_htid x`, as `utils.extract_htid` does after stripping suffixes)
recovers `x` exactly. -/
theorem C5_decode_encode_roundtrip (x lib vol : List Char)
    (hsplit : splitOnce '.' x = some (lib, vol))
    (h1 : ':' ∈ vol) (h2 : '/' ∈ vol) (h3 : 2 ≤ vol.count '.')
    (hx : ∀ c ∈ x, c ≠ '+' ∧ c ≠ '=' ∧ c ≠ ',') :
    (clean_htid x).map _id_decode = some x := by
  obtain ⟨heq, _⟩ := splitOnce_eq '.' x lib vol hsplit
  have hch : clean_htid x = some (lib ++ '.' :: _id_encode vol) := by
    unfold clean_htid; rw [hsplit]
  rw [hch]
  have hlib : ∀ c ∈ lib, c ≠ '+' ∧ c ≠ '=' ∧ c ≠ ',' := fun c hc =>
    hx c (heq ▸ List.mem_append_left _ hc)
  have hvol : ∀ c ∈ vol, c ≠ '+' ∧ c ≠ '=' ∧ c ≠ ',' := fun c hc =>
    hx c (heq ▸ List.mem_append_right _ (List.mem_cons_of_mem '.' hc))
  have : _id_decode (lib ++ '.' :: _id_encode vol) = lib ++ '.' :: vol := by
    rw [show ('.' :: _id_encode vol) = ['.'] ++ _id_encode vol from rfl,
      _id_decode_append, _id_decode_append,
      _id_decode_fixed lib hlib,
      show _id_decode ['.'] = ['.'] from by decide,
      _id_decode_encode vol hvol]
    simp
  rw [Option.map_some', this, ← heq]

/-- **C5** counterexample to the claim as stated: the identifier
`"a.b+:/.."` has a volume-local part containing `:`, `/`, and two further
`.` characters, yet because it also contains the escape character `+`,
`decode(encode(x))` differs from `x` (`+` decodes to `:`). -/
theorem C5_counterexample :
    splitOnce '.' ("a.b+:/..".toList) = some ("a".toList, "b+:/..".toList)
    ∧ ':' ∈ "b+:/..".toList
    ∧ '/' ∈ "b+:/..".toList
    ∧ 2 ≤ List.count '.' ("b+:/..".toList)
    ∧ (clean_htid ("a.b+:/..".toList)).map _id_decode
        ≠ some ("a.b+:/..".toList) := by
  decide

/-- **C5** witness: the amended round trip holds at the concrete identifier
`"uc1.ab:c/d.e.f"`. -/
theorem C5_witness :
    (splitOnce '.' ("uc1.ab:c/d.e.f".toList)
        = some ("uc1".toList, "ab:c/d.e.f".toList))
    ∧ (clean_htid ("uc1.ab:c/d.e.f".toList)).map _id_decode
        = some ("uc1.ab:c/d.e.f".toList) := by
  refine ⟨by decide, ?_⟩
  exact C5_decode_encode_roundtrip ("uc1.ab:c/d.e.f".toList)
    ("uc1".toList) ("ab:c/d.e.f".toList)
    (by decide) (by decide) (by decide) (by decide) (by decide)

/-- **C6** (amended).  `IdResolver.fname` is a pure function (identical
arguments give identical output); changing the suffix alone always changes
the filename; changing the format alone changes the filename except in the
corner where the format toggles between `parquet` and `None` while the
compression is the literal string `"parquet"`; and changing the compression
alone changes the filename provided the format is not `parquet` (for
`parquet` the compression segment is dropped). -/
theorem C6_fname_pure_and_argument_sensitive
    (id cid : List Char) (hcid : clean_htid id = some cid)
    (f c s : Option (List Char)) :
    (fname id f c s = fname id f c s)
    ∧ (∀ s1 s2 : Option (List Char), s1 ≠ s2 →
        fname id f c s1 ≠ fname id f c s2)
    ∧ (∀ f1 f2 : Option (List Char), f1 ≠ f2 →
        ¬(c = some ("parquet".toList) ∧
          ((f1 = some ("parquet".toList) ∧ f2 = none) ∨
           (f1 = none ∧ f2 = some ("parquet".toList)))) →
        fname id f1 c s ≠ fname id f2 c s)
    ∧ (∀ c1 c2 : Option (List Char), f ≠ some ("parquet".toList) → c1 ≠ c2 →
        fname id f c1 s ≠ fname id f c2 s) := by
  refine ⟨rfl, ?_, ?_, ?_⟩
  · intro s1 s2 hne heq
    rw [fname_eq, fname_eq, hcid, Option.map_some', Option.map_some'] at heq
    have hl := Option.some.inj heq
    simp only [List.append_assoc] at hl
    have h2 := List.append_cancel_left hl
    exact hne (optSeg_injective (List.append_cancel_right h2))
  · intro f1 f2 hne hbad heq
    rw [fname_eq, fname_eq, hcid, Option.map_some', Option.map_some'] at heq
    have hl := Option.some.inj heq
    simp only [List.append_assoc] at hl
    have h2 := List.append_cancel_left hl
    have h3 := List.append_cancel_left h2
    exact hne (formatSeg_eq f1 f2 c h3 hbad)
  · intro c1 c2 hpq hne heq
    rw [fname_eq, fname_eq, hcid, Option.map_some', Option.map_some'] at heq
    have hl := Option.some.inj heq
    simp only [List.append_assoc] at hl
    have h2 := List.append_cancel_left hl
    have h3 := List.append_cancel_left h2
    have h4 := List.append_cancel_left h3
    rw [if_neg hpq, if_neg hpq] at h4
    exact hne (optSeg_injective h4)

/-- **C6** counterexamples to the claim as stated: with format `parquet` the
compression argument is dropped from the filename, so changing it does not
change the output; and between format `parquet` (compression dropped) and
format `None` with compression literally `"parquet"`, the filenames also
coincide. -/
theorem C6_counterexample :
    (fname ("a.b".toList) (some ("parquet".toList)) none none
        = fname ("a.b".toList) (some ("parquet".toList))
            (some ("snappy".toList)) none
      ∧ (none : Option (List Char)) ≠ some ("snappy".toList))
    ∧ (fname ("a.b".toList) (some ("parquet".toList))
          (some ("parquet".toList)) none
        = fname ("a.b".toList) none (some ("parquet".toList)) none
      ∧ some ("parquet".toList) ≠ (none : Option (List Char))) := by
  decide

/-- **C6** witness: at the identifier `"a.b"` with format `json` and
compression `bz2`, varying the suffix, the format (to `parquet`), or the
compression (to `gz`) each changes the filename. -/
theorem C6_witness :
    clean_htid ("a.b".toList) = some ("a.b".toList)
    ∧ fname ("a.b".toList) (some ("json".toList)) (some ("bz2".toList)) none
        ≠ fname ("a.b".toList) (some ("json".toList)) (some ("bz2".toList))
            (some ("tokens".toList))
    ∧ fname ("a.b".toList) (some ("json".toList)) (some ("bz2".toList)) none
        ≠ fname ("a.b".toList) (some ("parquet".toList))
            (some ("bz2".toList)) none
    ∧ fname ("a.b".toList) (some ("json".toList)) (some ("bz2".toList)) none
        ≠ fname ("a.b".toList) (some ("json".toList)) (some ("gz".toList)) none := by
  have h := C6_fname_pure_and_argument_sensitive ("a.b".toList) ("a.b".toList)
    (by decide) (some ("json".toList)) (some ("bz2".toList)) none
  refine ⟨by decide, ?_, ?_, ?_⟩
  · exact h.2.1 none (some ("tokens".toList)) (by decide)
  · exact h.2.2.1 (some ("json".toList)) (some ("parquet".toList))
      (by decide) (by decide)
  · exact h.2.2.2 (some ("bz2".toList)) (some ("gz".toList))
      (by decide) (by decide)

/-! ## Directory-sharding paths (`utils.py`) -/

/-- The chunking loop of `utils._id2path`: consume the encoded id two
characters at a time (`val, clean_id = clean_id[:2], clean_id[2:]`). -/
def chunk2 : List Char → List (List Char)
  | [] => []
  | [c] => [[c]]
  | a :: b :: rest => [a, b] :: chunk2 rest

/-- `utils._id2path`: encode the (volume) id and chunk it pairwise. -/
def _id2path (id : List Char) : List (List Char) :=
  chunk2 (_id_encode id)

/-- Python `s[::3]`: every third character, starting from the first. -/
def everyThird : List Char → List Char
  | [] => []
  | [a] => [a]
  | [a, _] => [a]
  | a :: _ :: _ :: rest => a :: everyThird rest

/-- One step of POSIX `os.path.join`. -/
def osPathJoin2 (path b : List Char) : List Char :=
  if b.head? = some '/' then b
  else if path = [] ∨ path.getLast? = some '/' then path ++ b
  else path ++ '/' :: b

/-- POSIX `os.path.join(a, *rest)`. -/
def osPathJoin (a : List Char) (rest : List (List Char)) : List Char :=
  rest.foldl osPathJoin2 a

/-- Components interleaved with `/` separators (`"/".join`). -/
def joinSlash : List (List Char) → List Char
  | [] => []
  | [x] => x
  | x :: y :: rest => x ++ '/' :: joinSlash (y :: rest)

/-- Split a path at its `/` separators (inverse of `joinSlash` for
slash-free components). -/
def splitSlash : List Char → List (List Char)
  | [] => [[]]
  | c :: rest =>
    if c = '/' then [] :: splitSlash rest
    else match splitSlash rest with
      | [] => [[c]]
      | x :: xs => (c :: x) :: xs

/-- `utils.id_to_pairtree`: split the id, encode the volume part, build the
filename from the cleaned id plus the non-`None` format and compression
segments (the `suffix` argument is not used by the source), and join
`libid / pairtree_root / <2-char chunks> / <encoded volid> / filename`. -/
def id_to_pairtree (htid : List Char)
    (format suffix compression : Option (List Char)) : Option (List Char) :=
  match splitOnce '.' htid, clean_htid htid with
  | some (libid, volid), some cleaned =>
    let volid_clean := _id_encode volid
    let suffixes := [format, compression].filterMap fun x => x
    let filename := joinDot (cleaned :: suffixes)
    some (osPathJoin libid
      (["pairtree_root".toList] ++ _id2path volid ++ [volid_clean, filename]))
  | _, _ => none

/-- `utils.id_to_stubbytree`: as `id_to_pairtree`, but the single directory
between the library prefix and the filename is every third character of the
encoded volume id (`volid_clean[::3]`). -/
def id_to_stubbytree (htid : List Char)
    (format suffix compression : Option (List Char)) : Option (List Char) :=
  match splitOnce '.' htid, clean_htid htid with
  | some (libid, volid), some cleaned =>
    let volid_clean := _id_encode volid
    let suffixes := [format, compression].filterMap fun x => x
    let filename := joinDot (cleaned :: suffixes)
    some (osPathJoin libid [everyThird volid_clean, filename])
  | _, _ => none

/-! ### Facts about joining and splitting paths -/

theorem joinSlash_append_cons (x y : List Char) (rest : List (List Char)) :
    joinSlash ((x ++ y) :: rest) = x ++ joinSlash (y :: rest) := by
  cases rest <;> simp [joinSlash, List.append_assoc]

/-- On nonempty, slash-free-at-the-edges components, `os.path.join` is
interleaving with `/`. -/
theorem osPathJoin_eq_joinSlash :
    ∀ (rest : List (List Char)) (a : List Char), a ≠ [] →
      a.getLast? ≠ some '/' →
      (∀ b ∈ rest, b ≠ [] ∧ b.head? ≠ some '/' ∧ b.getLast? ≠ some '/') →
      osPathJoin a rest = joinSlash (a :: rest)
  | [], a => by intro _ _ _; rfl
  | b :: rest, a => by
    intro ha ha2 hrest
    obtain ⟨hb1, hb2, hb3⟩ := hrest b (List.mem_cons_self b rest)
    have hstep : osPathJoin2 a b = a ++ '/' :: b := by
      unfold osPathJoin2
      rw [if_neg hb2, if_neg (by push_neg; exact ⟨ha, ha2⟩)]
    have ha' : (a ++ '/' :: b) ≠ [] := by simp
    have ha2' : (a ++ '/' :: b).getLast? ≠ some '/' := by
      rw [List.getLast?_append_cons]
      cases b with
      | nil => exact absurd rfl hb1
      | cons c t =>
        rw [List.getLast?_cons_cons]
        exact hb3
    have hrec := osPathJoin_eq_joinSlash rest (a ++ '/' :: b) ha' ha2'
      fun x hx => hrest x (List.mem_cons_of_mem b hx)
    have : osPathJoin a (b :: rest) = osPathJoin (a ++ '/' :: b) rest := by
      simp only [osPathJoin, List.foldl_cons, hstep]
    rw [this, hrec,
      show a ++ '/' :: b = (a ++ ['/']) ++ b from by simp,
      joinSlash_append_cons, List.append_assoc]
    rfl

theorem splitSlash_no_slash :
    ∀ a : List Char, '/' ∉ a → splitSlash a = [a]
  | [] => by intro _; rfl
  | c :: rest => by
    intro h
    have hc : c ≠ '/' := fun hh => h (hh ▸ List.mem_cons_self c rest)
    have hrest := splitSlash_no_slash rest fun hh => h (List.mem_cons_of_mem c hh)
    simp only [splitSlash, if_neg hc, hrest]

theorem splitSlash_append :
    ∀ (a rest : List Char), '/' ∉ a →
      splitSlash (a ++ '/' :: rest) = a :: splitSlash rest
  | [], rest => by intro _; simp [splitSlash]
  | c :: a', rest => by
    intro h
    have hc : c ≠ '/' := fun hh => h (hh ▸ List.mem_cons_self c a')
    have hrec := splitSlash_append a' rest fun hh => h (List.mem_cons_of_mem c hh)
    rw [List.cons_append]
    simp only [splitSlash, if_neg hc]
    rw [hrec]

theorem splitSlash_joinSlash :
    ∀ comps : List (List Char), (∀ x ∈ comps, '/' ∉ x) → comps ≠ [] →
      splitSlash (joinSlash comps) = comps
  | [] => by intro _ h; exact absurd rfl h
  | [x] => by
    intro h _
    exact splitSlash_no_slash x (h x (List.mem_cons_self x []))
  | x :: y :: t => by
    intro h _
    rw [show joinSlash (x :: y :: t) = x ++ '/' :: joinSlash (y :: t) from rfl,
      splitSlash_append x _ (h x (List.mem_cons_self x (y :: t))),
      splitSlash_joinSlash (y :: t)
        (fun z hz => h z (List.mem_cons_of_mem x hz)) (by simp)]

/-! ### Facts about the sharding helpers -/

theorem chunk2_length :
    ∀ l : List Char, (chunk2 l).length = (l.length + 1) / 2
  | [] => by simp [chunk2]
  | [_] => by simp [chunk2]
  | a :: b :: rest => by
    simp only [chunk2, List.length_cons, chunk2_length rest]
    omega

theorem chunk2_mem :
    ∀ (l : List Char) (x : List Char), x ∈ chunk2 l → x ≠ [] ∧ ∀ c ∈ x, c ∈ l
  | [], x => by intro h; simp [chunk2] at h
  | [a], x => by
    intro h
    simp [chunk2] at h
    subst h
    constructor
    · simp
    · intro c hc; simpa using hc
  | a :: b :: rest, x => by
    intro h
    rw [chunk2] at h
    rcases List.mem_cons.mp h with h | h
    · subst h
      refine ⟨by simp, ?_⟩
      intro c hc
      rcases List.mem_cons.mp hc with h | h
      · subst h
        simp
      · simp at h
        subst h
        simp
    · obtain ⟨h1, h2⟩ := chunk2_mem rest x h
      exact ⟨h1, fun c hc =>
        List.mem_cons_of_mem a (List.mem_cons_of_mem b (h2 c hc))⟩

theorem everyThird_ne_nil : ∀ l : List Char, l ≠ [] → everyThird l ≠ []
  | [], h => absurd rfl h
  | [_], _ => by simp [everyThird]
  | [_, _], _ => by simp [everyThird]
  | _ :: _ :: _ :: _, _ => by simp [everyThird]

theorem everyThird_mem :
    ∀ (l : List Char) (c : Char), c ∈ everyThird l → c ∈ l
  | [], c => by simp [everyThird]
  | [a], c => by simp [everyThird]
  | [a, b], c => by
    intro h
    simp [everyThird] at h
    simp [h]
  | a :: b :: d :: rest, c => by
    intro h
    rw [everyThird] at h
    rcases List.mem_cons.mp h with h | h
    · exact h ▸ List.mem_cons_self a _
    · exact List.mem_cons_of_mem a (List.mem_cons_of_mem b
        (List.mem_cons_of_mem d (everyThird_mem rest c h)))

theorem _id_encode_no_slash (s : List Char) : '/' ∉ _id_encode s := by
  rw [_id_encode_eq_map]
  intro h
  obtain ⟨c, _, hc⟩ := List.mem_map.mp h
  exact encodeChar_ne_slash c hc

theorem _id_encode_ne_nil (s : List Char) (h : s ≠ []) : _id_encode s ≠ [] := by
  rw [_id_encode_eq_map]
  simpa using h

theorem joinDot_mem :
    ∀ (parts : List (List Char)) (c : Char), c ∈ joinDot parts →
      c = '.' ∨ ∃ p ∈ parts, c ∈ p
  | [], c => by simp [joinDot]
  | [x], c => by
    intro h
    right
    exact ⟨x, List.mem_cons_self x [], h⟩
  | x :: y :: t, c => by
    intro h
    rw [joinDot] at h
    rcases List.mem_append.mp h with h | h
    · exact Or.inr ⟨x, List.mem_cons_self x (y :: t), h⟩
    · rcases List.mem_cons.mp h with h | h
      · exact Or.inl h
      · rcases joinDot_mem (y :: t) c h with h | ⟨p, hp, hc⟩
        · exact Or.inl h
        · exact Or.inr ⟨p, List.mem_cons_of_mem x hp, hc⟩

theorem joinDot_head_ne_nil (x : List Char) (rest : List (List Char))
    (h : x ≠ []) : joinDot (x :: rest) ≠ [] := by
  cases rest with
  | nil => exact h
  | cons y t =>
    rw [joinDot]
    simp

theorem head?_ne_of_not_mem (l : List Char) (h : '/' ∉ l) :
    l.head? ≠ some '/' := by
  cases l with
  | nil => simp
  | cons c t =>
    intro hh
    simp at hh
    exact h (hh ▸ List.mem_cons_self c t)

theorem getLast?_ne_of_not_mem (l : List Char) (h : '/' ∉ l) :
    l.getLast? ≠ some '/' := by
  intro hh
  have : '/' ∈ l := by
    obtain ⟨_, heq⟩ := List.mem_getLast?_eq_getLast (x := '/') (l := l) hh
    exact heq ▸ List.getLast_mem _
  exact h this

/-- The filename built by `id_to_pairtree`/`id_to_stubbytree` contains no
`/` when the library prefix and the optional format/compression segments
contain none. -/
theorem filename_no_slash (lib vol : List Char)
    (format compression : Option (List Char))
    (hlibs : '/' ∉ lib)
    (hf : ∀ s, format = some s → '/' ∉ s)
    (hc : ∀ s, compression = some s → '/' ∉ s) :
    '/' ∉ joinDot ((lib ++ '.' :: _id_encode vol)
      :: ([format, compression].filterMap fun x => x)) := by
  intro hmem
  rcases joinDot_mem _ '/' hmem with h | ⟨p, hp, hcp⟩
  · exact absurd h (by decide)
  · rcases List.mem_cons.mp hp with h | h
    · subst h
      rcases List.mem_append.mp hcp with h | h
      · exact hlibs h
      · rcases List.mem_cons.mp h with h | h
        · exact absurd h (by decide)
        · exact _id_encode_no_slash vol h
    · rcases List.mem_filterMap.mp h with ⟨o, ho, hoo⟩
      rcases List.mem_cons.mp ho with h1 | h1
      · exact hf p (h1 ▸ hoo) hcp
      · simp only [List.mem_singleton] at h1
        exact hc p (h1 ▸ hoo) hcp

end HtrcFeatures

namespace HtrcFeatures

/-- **C7** (confirmed).  For an identifier `lib.vol` with nonempty,
slash-free library prefix, nonempty volume part, and slash-free optional
format/compression segments, the pairtree path splits into exactly the
components `lib / pairtree_root / <ceil(n/2) two-char shards> /
<encoded volid> / filename`, so its component count is
`2 + ceil(n/2) + 1 + 1` where `n` is the encoded volume-id length
(`(n+1)/2 = ceil(n/2)` in natural-number arithmetic). -/
theorem C7_pairtree_depth (htid lib vol : List Char)
    (format suffix compression : Option (List Char))
    (hsplit : splitOnce '.' htid = some (lib, vol))
    (hlib : lib ≠ []) (hlibs : '/' ∉ lib) (hvol : vol ≠ [])
    (hf : ∀ s, format = some s → '/' ∉ s)
    (hc : ∀ s, compression = some s → '/' ∉ s) :
    (id_to_pairtree htid format suffix compression).map splitSlash
        = some ([lib, "pairtree_root".toList] ++ _id2path vol
            ++ [_id_encode vol,
                joinDot ((lib ++ '.' :: _id_encode vol)
                  :: ([format, compression].filterMap fun x => x))])
    ∧ ([lib, "pairtree_root".toList] ++ _id2path vol
            ++ [_id_encode vol,
                joinDot ((lib ++ '.' :: _id_encode vol)
                  :: ([format, compression].filterMap fun x => x))]).length
        = 2 + ((_id_encode vol).length + 1) / 2 + 1 + 1 := by
  have hch : clean_htid htid = some (lib ++ '.' :: _id_encode vol) := by
    unfold clean_htid; rw [hsplit]
  have hfn_ne : joinDot ((lib ++ '.' :: _id_encode vol)
      :: ([format, compression].filterMap fun x => x)) ≠ [] := by
    apply joinDot_head_ne_nil
    simp [hlib]
  have hfn_ns := filename_no_slash lib vol format compression hlibs hf hc
  have hcomp_facts : ∀ b ∈ ("pairtree_root".toList :: (_id2path vol
      ++ [_id_encode vol,
          joinDot ((lib ++ '.' :: _id_encode vol)
            :: ([format, compression].filterMap fun x => x))])),
      b ≠ [] ∧ '/' ∉ b := by
    intro b hb
    rcases List.mem_cons.mp hb with h | h
    · subst h
      exact ⟨by decide, by decide⟩
    · rcases List.mem_append.mp h with h | h
      · obtain ⟨h1, h2⟩ := chunk2_mem (_id_encode vol) b h
        exact ⟨h1, fun hs => _id_encode_no_slash vol (h2 '/' hs)⟩
      · rcases List.mem_cons.mp h with h | h
        · subst h
          exact ⟨_id_encode_ne_nil vol hvol, _id_encode_no_slash vol⟩
        · simp only [List.mem_singleton] at h
          subst h
          exact ⟨hfn_ne, hfn_ns⟩
  have hjoin := osPathJoin_eq_joinSlash
    ("pairtree_root".toList :: (_id2path vol
      ++ [_id_encode vol,
          joinDot ((lib ++ '.' :: _id_encode vol)
            :: ([format, compression].filterMap fun x => x))]))
    lib hlib (getLast?_ne_of_not_mem lib hlibs)
    (fun b hb => ⟨(hcomp_facts b hb).1,
      head?_ne_of_not_mem b (hcomp_facts b hb).2,
      getLast?_ne_of_not_mem b (hcomp_facts b hb).2⟩)
  have hresplit := splitSlash_joinSlash
    (lib :: "pairtree_root".toList :: (_id2path vol
      ++ [_id_encode vol,
          joinDot ((lib ++ '.' :: _id_encode vol)
            :: ([format, compression].filterMap fun x => x))]))
    (by
      intro x hx
      rcases List.mem_cons.mp hx with h | h
      · subst h; exact hlibs
      · exact (hcomp_facts x h).2)
    (by simp)
  constructor
  · unfold id_to_pairtree
    rw [hsplit, hch]
    simp only [Option.map_some']
    rw [show (["pairtree_root".toList] ++ _id2path vol
        ++ [_id_encode vol,
            joinDot ((lib ++ '.' :: _id_encode vol)
              :: ([format, compression].filterMap fun x => x))])
      = ("pairtree_root".toList :: (_id2path vol
        ++ [_id_encode vol,
            joinDot ((lib ++ '.' :: _id_encode vol)
              :: ([format, compression].filterMap fun x => x))])) from by simp]
    rw [hjoin]
    rw [show (joinSlash (lib :: "pairtree_root".toList :: (_id2path vol
        ++ [_id_encode vol,
            joinDot ((lib ++ '.' :: _id_encode vol)
              :: ([format, compression].filterMap fun x => x))]))) =
      joinSlash (lib :: "pairtree_root".toList :: (_id2path vol
        ++ [_id_encode vol,
            joinDot ((lib ++ '.' :: _id_encode vol)
              :: ([format, compression].filterMap fun x => x))])) from rfl]
    rw [hresplit]
    simp
  · simp only [_id2path, List.length_append, List.length_cons,
      List.length_nil, chunk2_length]

/-- **C7** witness: the pairtree path for `"a.bc"` (json, bz2) splits into
`a / pairtree_root / bc / bc / a.bc.json.bz2`: one 2-character shard level
(`ceil(2/2) = 1`) plus the two fixed levels plus the terminal directory and
the filename. -/
theorem C7_witness :
    splitOnce '.' ("a.bc".toList) = some ("a".toList, "bc".toList)
    ∧ (id_to_pairtree ("a.bc".toList) (some ("json".toList)) none
          (some ("bz2".toList))).map splitSlash
        = some (["a".toList, "pairtree_root".toList] ++ _id2path ("bc".toList)
            ++ [_id_encode ("bc".toList),
                joinDot (("a".toList ++ '.' :: _id_encode ("bc".toList))
                  :: ([some ("json".toList),
                       some ("bz2".toList)].filterMap fun x => x))])
    ∧ (["a".toList, "pairtree_root".toList] ++ _id2path ("bc".toList)
            ++ [_id_encode ("bc".toList),
                joinDot (("a".toList ++ '.' :: _id_encode ("bc".toList))
                  :: ([some ("json".toList),
                       some ("bz2".toList)].filterMap fun x => x))]).length
        = 2 + ((_id_encode ("bc".toList)).length + 1) / 2 + 1 + 1 := by
  have h := C7_pairtree_depth ("a.bc".toList) ("a".toList) ("bc".toList)
    (some ("json".toList)) none (some ("bz2".toList))
    (by decide) (by decide) (by decide) (by decide)
    (by intro s hs; cases hs; decide)
    (by intro s hs; cases hs; decide)
  exact ⟨by decide, h.1, h.2⟩

/-- **C8** (confirmed).  For an identifier `lib.vol` with nonempty,
slash-free library prefix, nonempty volume part, and slash-free optional
format/compression segments, the stubbytree path splits into exactly the
three components `lib / encoded_volid[::3] / filename`: a single directory
level between the library prefix and the filename, named by every third
character of the encoded volume id. -/
theorem C8_stubbytree_shape (htid lib vol : List Char)
    (format suffix compression : Option (List Char))
    (hsplit : splitOnce '.' htid = some (lib, vol))
    (hlib : lib ≠ []) (hlibs : '/' ∉ lib) (hvol : vol ≠ [])
    (hf : ∀ s, format = some s → '/' ∉ s)
    (hc : ∀ s, compression = some s → '/' ∉ s) :
    (id_to_stubbytree htid format suffix compression).map splitSlash
        = some [lib, everyThird (_id_encode vol),
                joinDot ((lib ++ '.' :: _id_encode vol)
                  :: ([format, compression].filterMap fun x => x))]
    ∧ [lib, everyThird (_id_encode vol),
        joinDot ((lib ++ '.' :: _id_encode vol)
          :: ([format, compression].filterMap fun x => x))].length = 3 := by
  have hch : clean_htid htid = some (lib ++ '.' :: _id_encode vol) := by
    unfold clean_htid; rw [hsplit]
  have hfn_ne : joinDot ((lib ++ '.' :: _id_encode vol)
      :: ([format, compression].filterMap fun x => x)) ≠ [] := by
    apply joinDot_head_ne_nil
    simp [hlib]
  have hfn_ns := filename_no_slash lib vol format compression hlibs hf hc
  have he_ne : everyThird (_id_encode vol) ≠ [] :=
    everyThird_ne_nil _ (_id_encode_ne_nil vol hvol)
  have he_ns : '/' ∉ everyThird (_id_encode vol) := fun hs =>
    _id_encode_no_slash vol (everyThird_mem _ '/' hs)
  have hcomp_facts : ∀ b ∈ [everyThird (_id_encode vol),
      joinDot ((lib ++ '.' :: _id_encode vol)
        :: ([format, compression].filterMap fun x => x))],
      b ≠ [] ∧ '/' ∉ b := by
    intro b hb
    rcases List.mem_cons.mp hb with h | h
    · subst h
      exact ⟨he_ne, he_ns⟩
    · simp only [List.mem_singleton] at h
      subst h
      exact ⟨hfn_ne, hfn_ns⟩
  have hjoin := osPathJoin_eq_joinSlash
    [everyThird (_id_encode vol),
     joinDot ((lib ++ '.' :: _id_encode vol)
       :: ([format, compression].filterMap fun x => x))]
    lib hlib (getLast?_ne_of_not_mem lib hlibs)
    (fun b hb => ⟨(hcomp_facts b hb).1,
      head?_ne_of_not_mem b (hcomp_facts b hb).2,
      getLast?_ne_of_not_mem b (hcomp_facts b hb).2⟩)
  have hresplit := splitSlash_joinSlash
    (lib :: [everyThird (_id_encode vol),
      joinDot ((lib ++ '.' :: _id_encode vol)
        :: ([format, compression].filterMap fun x => x))])
    (by
      intro x hx
      rcases List.mem_cons.mp hx with h | h
      · subst h; exact hlibs
      · exact (hcomp_facts x h).2)
    (by simp)
  refine ⟨?_, rfl⟩
  unfold id_to_stubbytree
  rw [hsplit, hch]
  simp only [Option.map_some']
  rw [hjoin, hresplit]

/-- **C8** witness: the stubbytree path for `"a.bcdefg"` (json, bz2) splits
into exactly `a / be / a.bcdefg.json.bz2`, the middle directory being every
third character of the encoded volume id `bcdefg`. -/
theorem C8_witness :
    splitOnce '.' ("a.bcdefg".toList) = some ("a".toList, "bcdefg".toList)
    ∧ (id_to_stubbytree ("a.bcdefg".toList) (some ("json".toList)) none
          (some ("bz2".toList))).map splitSlash
        = some ["a".toList, everyThird (_id_encode ("bcdefg".toList)),
                joinDot (("a".toList ++ '.' :: _id_encode ("bcdefg".toList))
                  :: ([some ("json".toList),
                       some ("bz2".toList)].filterMap fun x => x))]
    ∧ everyThird (_id_encode ("bcdefg".toList)) = "be".toList := by
  have h := C8_stubbytree_shape ("a.bcdefg".toList) ("a".toList)
    ("bcdefg".toList) (some ("json".toList)) none (some ("bz2".toList))
    (by decide) (by decide) (by decide) (by decide)
    (by intro s hs; cases hs; decide)
    (by intro s hs; cases hs; decide)
  exact ⟨by decide, h.1, by decide⟩

/-! ## Resolvers as stateful byte stores (`resolvers.py`, `caching.py`)

A resolver is modelled by its observable behaviour at the byte level: an
`open` in read mode may consult and update a backing store (a fallback
resolver backfills caches on a read), and an `open` in write mode followed
by writing a full byte string updates the store.  Streams are modelled by
the full byte content they deliver.  The schema parsers that interpret
the bytes (`Volume`/`JsonFileHandler`) are outside the modelled core, so
`copy_between_resolvers` is modelled as its net byte transfer: read the
volume's bytes from the source resolver and write them to the target. -/

/-- A storage backend with store state `σ`: `openRb s id` yields the bytes
served for `id` (possibly updating the store, as a caching resolver does);
`openWb s id bytes` is an `open(mode='wb')` followed by writing `bytes`. -/
structure Resolver (σ : Type) where
  openRb : σ → String → Except PyErr (List Nat × σ)
  openWb : σ → String → List Nat → Except PyErr σ

/-- A flat store mapping ids to byte contents: the logical content of a
filesystem-backed resolver (`LocalResolver`, `StubbytreeResolver`, ...). -/
abbrev Store := List (String × List Nat)

/-- Lookup: the most recently written entry for `id`. -/
def storeGet : Store → String → Option (List Nat)
  | [], _ => none
  | (k, v) :: rest, id => if k = id then some v else storeGet rest id

/-- Write: add (or overwrite) the entry for `id`. -/
def storeSet (s : Store) (id : String) (v : List Nat) : Store :=
  (id, v) :: s

/-- A `FilesystemResolver` over its directory contents: reading a missing
id raises `FileNotFoundError` (`full_path.open('rb')` on a missing file);
writing creates missing directories and succeeds. -/
def storeResolver : Resolver Store where
  openRb s id :=
    match storeGet s id with
    | some b => .ok (b, s)
    | none => .error (.fileNotFound id)
  openWb s id b := .ok (storeSet s id b)

/-- `caching.copy_between_resolvers(id, resolver1, resolver2)`: read the
volume's bytes from `resolver1` and write them through `resolver2`
(`output.write(input)`), modelled at the byte level. -/
def copy_between_resolvers {σ1 σ2 : Type} (id : String)
    (r1 : Resolver σ1) (r2 : Resolver σ2) (s1 : σ1) (s2 : σ2) :
    Except PyErr (σ1 × σ2) :=
  match r1.openRb s1 id with
  | .error e => .error e
  | .ok (bytes, s1') =>
    match r2.openWb s2 id bytes with
    | .error e => .error e
    | .ok s2' => .ok (s1', s2')

/-- `FallbackResolver.open` (read mode, `caching.py` lines 54-87), for the
caching configuration (`cache = True`, the default and the one
`chain_resolver` uses): try the primary; on a NotFound-class error
(`MissingDataError`, `FileNotFoundError`) with a fallback configured, copy
the resource from the fallback into the primary and re-invoke the
primary's open; re-raise when no fallback is configured; propagate every
other error unchanged. -/
def fallbackOpenRb {σp σf : Type} (primary : Resolver σp)
    (fallback : Option (Resolver σf)) (s : σp × σf) (id : String) :
    Except PyErr (List Nat × (σp × σf)) :=
  match primary.openRb s.1 id with
  | .ok (bytes, sp') => .ok (bytes, (sp', s.2))
  | .error e =>
    if isNotFoundClass e then
      match fallback with
      | none => .error e
      | some fb =>
        match copy_between_resolvers id fb primary s.2 s.1 with
        | .error e2 => .error e2
        | .ok (sf', sp') =>
          match primary.openRb sp' id with
          | .ok (bytes, sp'') => .ok (bytes, (sp'', sf'))
          | .error e3 => .error e3
    else .error e

/-- The decorator built by `make_fallback_resolver(primary, fallback)` with
a configured fallback: reads go through `fallbackOpenRb`; writes delegate
to the primary (the decorator's `open` with `mode='wb'` reaches
`super().open`, i.e. the primary backend, and filesystem writes do not
raise the NotFound class). -/
def fallbackResolver {σp σf : Type} (primary : Resolver σp)
    (fallback : Resolver σf) : Resolver (σp × σf) where
  openRb s id := fallbackOpenRb primary (some fallback) s id
  openWb s id b :=
    match primary.openWb s.1 id b with
    | .ok sp' => .ok (sp', s.2)
    | .error e => .error e

/-- `chain_resolver` applied to a three-tier configuration: the builder
pops tiers from the end, so `[L1, L2, L3]` becomes
`Fallback(L1, Fallback(L2, L3))`. -/
def chain_resolver3 {σ1 σ2 σ3 : Type} (r1 : Resolver σ1) (r2 : Resolver σ2)
    (r3 : Resolver σ3) : Resolver (σ1 × σ2 × σ3) :=
  fallbackResolver r1 (fallbackResolver r2 r3)

theorem storeGet_storeSet (s : Store) (id : String) (v : List Nat) :
    storeGet (storeSet s id v) id = some v := by
  simp [storeGet, storeSet]

/-- A primary backend whose read always fails with a fixed non-NotFound
error (e.g. a permission error); used to witness error propagation. -/
def failingResolver (e : PyErr) : Resolver Unit where
  openRb _ _ := .error e
  openWb s _ _ := .ok s

/-- **C1** (confirmed).  With a store-backed primary missing `id` and a
fallback that serves bytes `X` for `id`, `FallbackResolver.open(id, 'rb')`
returns exactly `X` together with a primary store now holding `X` at `id`
(the stream is the one obtained by re-invoking the primary's open after
`copy_between_resolvers`); the primary's address afterwards holds a
byte-identical copy; and a second open on the resulting state succeeds from
the primary alone — its result is the same for **every** fallback resolver,
i.e. the fallback is not consulted. -/
theorem C1_fallback_caches {σf : Type} (fb : Resolver σf) (sf sf' : σf)
    (id : String) (X : List Nat) (sp : Store)
    (hmiss : storeGet sp id = none)
    (hserve : fb.openRb sf id = .ok (X, sf')) :
    fallbackOpenRb storeResolver (some fb) (sp, sf) id
        = .ok (X, (storeSet sp id X, sf'))
    ∧ storeGet (storeSet sp id X) id = some X
    ∧ ∀ {σg : Type} (fb2 : Resolver σg) (sg : σg),
        fallbackOpenRb storeResolver (some fb2) (storeSet sp id X, sg) id
          = .ok (X, (storeSet sp id X, sg)) := by
  refine ⟨?_, storeGet_storeSet sp id X, ?_⟩
  · simp [fallbackOpenRb, storeResolver, copy_between_resolvers, hmiss,
      hserve, isNotFoundClass, storeGet_storeSet]
  · intro σg fb2 sg
    simp [fallbackOpenRb, storeResolver, storeGet_storeSet]

/-- **C1** witness: primary empty, fallback holding `[1, 2, 3]` at
`"a.b"`: the first open returns `[1, 2, 3]` and caches it; the second open
(shown both with the original fallback and with a different — never
consulted — fallback store) succeeds from the primary alone. -/
theorem C1_witness :
    storeGet [] "a.b" = none
    ∧ storeResolver.openRb [("a.b", [1, 2, 3])] "a.b"
        = .ok ([1, 2, 3], [("a.b", [1, 2, 3])])
    ∧ fallbackOpenRb storeResolver (some storeResolver)
        (([] : Store), [("a.b", [1, 2, 3])]) "a.b"
        = .ok ([1, 2, 3], (storeSet [] "a.b" [1, 2, 3], [("a.b", [1, 2, 3])]))
    ∧ storeGet (storeSet [] "a.b" [1, 2, 3]) "a.b" = some [1, 2, 3]
    ∧ fallbackOpenRb storeResolver (some storeResolver)
        (storeSet [] "a.b" [1, 2, 3], ([] : Store)) "a.b"
        = .ok ([1, 2, 3], (storeSet [] "a.b" [1, 2, 3], ([] : Store))) := by
  have h := C1_fallback_caches storeResolver [("a.b", [1, 2, 3])]
    [("a.b", [1, 2, 3])] "a.b" [1, 2, 3] [] (by decide)
    (by simp [storeResolver, storeGet])
  exact ⟨by decide, by simp [storeResolver, storeGet], h.1, h.2.1,
    h.2.2 storeResolver ([] : Store)⟩

/-- **C2** (confirmed).  For the three-tier chain built by `chain_resolver`
from `[L1, L2, L3]` (nearest first), with `L1` and `L2` missing `id` and
`L3` holding `Y` at `id`: opening the root resolver returns `Y`'s bytes,
and afterwards both intermediate tiers independently hold `Y` at `id`. -/
theorem C2_chain_backfill (id : String) (Y : List Nat) (L1 L2 L3 : Store)
    (h1 : storeGet L1 id = none) (h2 : storeGet L2 id = none)
    (h3 : storeGet L3 id = some Y) :
    (chain_resolver3 storeResolver storeResolver storeResolver).openRb
        (L1, (L2, L3)) id
      = .ok (Y, (storeSet L1 id Y, (storeSet L2 id Y, L3)))
    ∧ storeGet (storeSet L1 id Y) id = some Y
    ∧ storeGet (storeSet L2 id Y) id = some Y := by
  refine ⟨?_, storeGet_storeSet L1 id Y, storeGet_storeSet L2 id Y⟩
  simp [chain_resolver3, fallbackResolver, fallbackOpenRb,
    copy_between_resolvers, storeResolver, h1, h2, h3, isNotFoundClass,
    storeGet_storeSet]

/-- **C2** witness: the three-tier chain with empty `L1`, `L2` and
`L3 = [("a.b", [9, 9])]` serves `[9, 9]` and backfills both tiers. -/
theorem C2_witness :
    storeGet [] "a.b" = (none : Option (List Nat))
    ∧ storeGet [("a.b", [9, 9])] "a.b" = some [9, 9]
    ∧ (chain_resolver3 storeResolver storeResolver storeResolver).openRb
        (([] : Store), (([] : Store), [("a.b", [9, 9])])) "a.b"
      = .ok ([9, 9], (storeSet [] "a.b" [9, 9],
          (storeSet [] "a.b" [9, 9], [("a.b", [9, 9])])))
    ∧ storeGet (storeSet [] "a.b" [9, 9]) "a.b" = some [9, 9] := by
  have h := C2_chain_backfill "a.b" [9, 9] [] [] [("a.b", [9, 9])]
    (by decide) (by decide) (by simp [storeGet])
  exact ⟨by decide, by simp [storeGet], h.1, h.2.1⟩

/-- **C3** (confirmed).  Every non-NotFound-class error raised by the
primary's open (permission errors, HTTP transport errors, ...) is
propagated unchanged by `FallbackResolver.open`, and the result does not
depend on the fallback resolver at all (the conclusion holds for every
fallback resolver and fallback state): the fallback is never invoked. -/
theorem C3_non_notfound_propagates {σp σf : Type} (primary : Resolver σp)
    (fb : Resolver σf) (sp : σp) (sf : σf) (id : String) (e : PyErr)
    (herr : primary.openRb sp id = .error e)
    (hnnf : isNotFoundClass e = false) :
    fallbackOpenRb primary (some fb) (sp, sf) id = .error e := by
  simp [fallbackOpenRb, herr, hnnf]

/-- **C3** witness: a primary failing with `PermissionError` (and another
failing with an HTTP 500 transport error) propagates that error unchanged
through the fallback decorator, for a populated fallback store that could
have served the id. -/
theorem C3_witness :
    (failingResolver (.permissionError "denied")).openRb () "a.b"
        = .error (.permissionError "denied")
    ∧ isNotFoundClass (.permissionError "denied") = false
    ∧ fallbackOpenRb (failingResolver (.permissionError "denied"))
        (some storeResolver) ((), [("a.b", [7])]) "a.b"
        = .error (.permissionError "denied")
    ∧ fallbackOpenRb (failingResolver (.httpError 500 "server error"))
        (some storeResolver) ((), [("a.b", [7])]) "a.b"
        = .error (.httpError 500 "server error") := by
  refine ⟨rfl, by decide, ?_, ?_⟩
  · exact C3_non_notfound_propagates (failingResolver (.permissionError "denied"))
      storeResolver () [("a.b", [7])] "a.b" (.permissionError "denied")
      rfl (by decide)
  · exact C3_non_notfound_propagates (failingResolver (.httpError 500 "server error"))
      storeResolver () [("a.b", [7])] "a.b" (.httpError 500 "server error")
      rfl (by decide)

/-! ## The HTTP backend (`HttpResolver._open`, `resolvers.py` lines 173-197)

The URL template is a parsed format string: a sequence of literal pieces
and `{field}` placeholders (what `string.Formatter().parse` yields).  The
network is abstracted as a function `get` from a URL to either the
response bytes or an error (`urlopen` raises `urllib.error.HTTPError`, an
`IOError` subclass, for every non-2xx response). -/

inductive UrlPiece where
  | lit (s : List Char)
  | fld (name : List Char)
  deriving DecidableEq, Repr

/-- The field names of a parsed URL template
(`[f[1] for f in formatter.parse(self.url)]`, minus the `None` entries). -/
def tplFields (tpl : List UrlPiece) : List (List Char) :=
  tpl.filterMap fun p => match p with
    | .lit _ => none
    | .fld n => some n

/-- `assert len(set(fields).intersection(['id', 'stubbypath', 'pairtreepath'])) > 0`. -/
def hasRecognizedField (tpl : List UrlPiece) : Bool :=
  (tplFields tpl).any fun n =>
    n == "id".toList || n == "stubbypath".toList || n == "pairtreepath".toList

/-- How Python's `str.format` renders a possibly-`None` keyword value. -/
def pyFormatArg : Option (List Char) → List Char
  | none => "None".toList
  | some s => s

/-- `self.url.format(id=id, stubbypath=stubbypath, pairtreepath=pairtreepath)`:
substitute each placeholder; a field other than the three supplied keywords
raises `KeyError` (modelled as `none`). -/
def formatUrl (tpl : List UrlPiece) (id : List Char)
    (stubbypath pairtreepath : Option (List Char)) : Option (List Char) :=
  match tpl with
  | [] => some []
  | .lit s :: rest =>
    (formatUrl rest id stubbypath pairtreepath).map fun u => s ++ u
  | .fld n :: rest =>
    if n = "id".toList then
      (formatUrl rest id stubbypath pairtreepath).map fun u => id ++ u
    else if n = "stubbypath".toList then
      (formatUrl rest id stubbypath pairtreepath).map fun u =>
        pyFormatArg stubbypath ++ u
    else if n = "pairtreepath".toList then
      (formatUrl rest id stubbypath pairtreepath).map fun u =>
        pyFormatArg pairtreepath ++ u
    else none

/-- `HttpResolver._open` (read path).  `selfFormat`/`selfCompression` are
the resolver's configured format and compression (the `compression =
'default'` argument resolves to `self.compression`).  Steps, in source
order: assert that a recognized placeholder is present; reject write mode
(`NotImplementedError`); compute `stubbypath`/`pairtreepath` only for the
placeholders that occur (a malformed id without `.` raises `ValueError`
inside `id_to_stubbytree`/`id_to_pairtree`); format the URL; issue the GET.
An `HTTPError` from the GET is logged and re-raised unchanged, whatever its
status code. -/
def httpOpen (url : List UrlPiece) (selfFormat : List Char)
    (selfCompression : Option (List Char))
    (get : List Char → Except PyErr (List Nat))
    (id : List Char) (mode : List Char) : Except PyErr (List Nat) :=
  if hasRecognizedField url then
    if mode = "wb".toList then .error (.notImplementedError "Mode is not defined")
    else
      match (if ("stubbypath".toList) ∈ tplFields url then
               match id_to_stubbytree id (some selfFormat) none selfCompression with
               | some p => .ok (some p)
               | none => .error (.valueError "not enough values to unpack")
             else .ok none : Except PyErr (Option (List Char))) with
      | .error e => .error e
      | .ok stubbypath =>
        match (if ("pairtreepath".toList) ∈ tplFields url then
                 match id_to_pairtree id (some selfFormat) none selfCompression with
                 | some p => .ok (some p)
                 | none => .error (.valueError "not enough values to unpack")
               else .ok none : Except PyErr (Option (List Char))) with
        | .error e => .error e
        | .ok pairtreepath =>
          match formatUrl url id stubbypath pairtreepath with
          | none => .error (.keyError "unknown format field")
          | some path_or_url => get path_or_url
  else .error (.assertionError "no id field in url template")

/-- The `stubbypath` keyword value `HttpResolver._open` computes: present
exactly when the template mentions `{stubbypath}`. -/
def stubbyArgOf (tpl : List UrlPiece) (fmt : List Char)
    (cmp : Option (List Char)) (id : List Char) : Option (List Char) :=
  if ("stubbypath".toList) ∈ tplFields tpl then
    id_to_stubbytree id (some fmt) none cmp
  else none

/-- The `pairtreepath` keyword value `HttpResolver._open` computes. -/
def pairArgOf (tpl : List UrlPiece) (fmt : List Char)
    (cmp : Option (List Char)) (id : List Char) : Option (List Char) :=
  if ("pairtreepath".toList) ∈ tplFields tpl then
    id_to_pairtree id (some fmt) none cmp
  else none

theorem id_to_stubbytree_some (id lib vol : List Char)
    (format suffix compression : Option (List Char))
    (hsplit : splitOnce '.' id = some (lib, vol)) :
    ∃ p, id_to_stubbytree id format suffix compression = some p := by
  have hch : clean_htid id = some (lib ++ '.' :: _id_encode vol) := by
    unfold clean_htid; rw [hsplit]
  unfold id_to_stubbytree
  rw [hsplit, hch]
  exact ⟨_, rfl⟩

theorem id_to_pairtree_some (id lib vol : List Char)
    (format suffix compression : Option (List Char))
    (hsplit : splitOnce '.' id = some (lib, vol)) :
    ∃ p, id_to_pairtree id format suffix compression = some p := by
  have hch : clean_htid id = some (lib ++ '.' :: _id_encode vol) := by
    unfold clean_htid; rw [hsplit]
  unfold id_to_pairtree
  rw [hsplit, hch]
  exact ⟨_, rfl⟩

/-- **C9** (corrected).  `HttpResolver._open` substitutes the computed path
fragment for the `{id}`/`{stubbypath}`/`{pairtreepath}` placeholder and
issues a GET whose outcome it returns unchanged: every HTTP error response,
the 404 class included, propagates as the `HTTPError` (`IOError`-class)
condition raised by `urlopen` — which is **not** the NotFound class that
triggers fallback. -/
theorem C9_http_get_and_error_propagation (tpl : List UrlPiece)
    (fmt : List Char) (cmp : Option (List Char))
    (get : List Char → Except PyErr (List Nat))
    (id lib vol u : List Char) (code : Nat) (msg : String)
    (hfld : hasRecognizedField tpl = true)
    (hsplit : splitOnce '.' id = some (lib, vol))
    (hurl : formatUrl tpl id (stubbyArgOf tpl fmt cmp id)
        (pairArgOf tpl fmt cmp id) = some u) :
    httpOpen tpl fmt cmp get id ("rb".toList) = get u
    ∧ isNotFoundClass (.httpError code msg) = false := by
  refine ⟨?_, rfl⟩
  have hstub : (if ("stubbypath".toList) ∈ tplFields tpl then
      match id_to_stubbytree id (some fmt) none cmp with
      | some p => .ok (some p)
      | none => .error (.valueError "not enough values to unpack")
    else .ok none : Except PyErr (Option (List Char)))
    = .ok (stubbyArgOf tpl fmt cmp id) := by
    unfold stubbyArgOf
    by_cases hs : ("stubbypath".toList) ∈ tplFields tpl
    · rw [if_pos hs, if_pos hs]
      obtain ⟨p, hp⟩ := id_to_stubbytree_some id lib vol (some fmt) none cmp hsplit
      rw [hp]
    · rw [if_neg hs, if_neg hs]
  have hpair : (if ("pairtreepath".toList) ∈ tplFields tpl then
      match id_to_pairtree id (some fmt) none cmp with
      | some p => .ok (some p)
      | none => .error (.valueError "not enough values to unpack")
    else .ok none : Except PyErr (Option (List Char)))
    = .ok (pairArgOf tpl fmt cmp id) := by
    unfold pairArgOf
    by_cases hs : ("pairtreepath".toList) ∈ tplFields tpl
    · rw [if_pos hs, if_pos hs]
      obtain ⟨p, hp⟩ := id_to_pairtree_some id lib vol (some fmt) none cmp hsplit
      rw [hp]
    · rw [if_neg hs, if_neg hs]
  unfold httpOpen
  rw [if_pos hfld, if_neg (by decide : ¬("rb".toList = "wb".toList))]
  simp only [hstub, hpair, hurl]

/-- **C9** counterexample to the claim as stated: with a template
`http://x/{id}` and a server answering 404 for `"a.b"`, `open` fails with
the `HTTPError` condition, which is **not** in the NotFound class that
triggers fallback (the claim says a 404-class response yields the NotFound
condition). -/
theorem C9_counterexample :
    httpOpen [UrlPiece.lit ("http://x/".toList), UrlPiece.fld ("id".toList)]
        ("json".toList) (some ("bz2".toList))
        (fun _ => .error (.httpError 404 "not found"))
        ("a.b".toList) ("rb".toList)
      = .error (.httpError 404 "not found")
    ∧ isNotFoundClass (.httpError 404 "not found") = false :=
  ⟨rfl, rfl⟩

/-- **C9** witness: for the template `http://x/{id}` with a server failing
with an HTTP 503, `open` performs the GET on the substituted URL
`http://x/a.b` and propagates the `HTTPError` unchanged. -/
theorem C9_witness :
    hasRecognizedField
        [UrlPiece.lit ("http://x/".toList), UrlPiece.fld ("id".toList)] = true
    ∧ splitOnce '.' ("a.b".toList) = some ("a".toList, "b".toList)
    ∧ formatUrl [UrlPiece.lit ("http://x/".toList), UrlPiece.fld ("id".toList)]
        ("a.b".toList)
        (stubbyArgOf [UrlPiece.lit ("http://x/".toList),
          UrlPiece.fld ("id".toList)] ("json".toList) (some ("bz2".toList))
          ("a.b".toList))
        (pairArgOf [UrlPiece.lit ("http://x/".toList),
          UrlPiece.fld ("id".toList)] ("json".toList) (some ("bz2".toList))
          ("a.b".toList))
        = some ("http://x/a.b".toList)
    ∧ httpOpen [UrlPiece.lit ("http://x/".toList), UrlPiece.fld ("id".toList)]
        ("json".toList) (some ("bz2".toList))
        (fun _ => .error (.httpError 503 "unavailable"))
        ("a.b".toList) ("rb".toList)
      = .error (.httpError 503 "unavailable")
    ∧ isNotFoundClass (.httpError 503 "unavailable") = false := by
  have h := C9_http_get_and_error_propagation
    [UrlPiece.lit ("http://x/".toList), UrlPiece.fld ("id".toList)]
    ("json".toList) (some ("bz2".toList))
    (fun _ => .error (.httpError 503 "unavailable"))
    ("a.b".toList) ("a".toList) ("b".toList) ("http://x/a.b".toList)
    503 "unavailable" (by decide) (by decide) (by decide)
  exact ⟨by decide, by decide, by decide, h.1, h.2⟩

/-! ## The decompression layer (`IdResolver._decompress` and
`IdResolver.open`, `resolvers.py` lines 65-143) -/

/-- A stream as returned by `open`: the raw backend buffer, or the buffer
wrapped in a bz2/gzip layer (`bz2.open(buffer, mode)` /
`gzip.open(buffer, mode)`). -/
inductive Wrapped (α : Type) where
  | raw (b : α)
  | bz2 (b : α) (mode : List Char)
  | gz (b : α) (mode : List Char)
  deriving DecidableEq, Repr

/-- The `compression` argument of `open`: the `'default'` sentinel (inherit
the resolver's configured compression) or an explicit value. -/
inductive CompressionArg where
  | dflt
  | value (c : Option (List Char))
  deriving DecidableEq, Repr

/-- `IdResolver._decompress`: a `None` buffer raises `FileNotFoundError`;
no compression, or the self-framing `parquet` format, returns the buffer
unchanged; `bz2`/`gz` wrap it; any other compression string falls off the
end of the `if`/`elif` chain and implicitly returns `None`. -/
def _decompress {α : Type} (buffer : Option α) (format : List Char)
    (compression : Option (List Char)) (mode : List Char) :
    Except PyErr (Option (Wrapped α)) :=
  match buffer with
  | none => .error (.fileNotFound "Empty buffer found very late")
  | some b =>
    if compression = none ∨ format = "parquet".toList then .ok (some (.raw b))
    else if compression = some ("bz2".toList) then .ok (some (.bz2 b mode))
    else if compression = some ("gz".toList) then .ok (some (.gz b mode))
    else .ok none

/-- `IdResolver.open`: validate the mode; resolve the `'default'`
compression to the resolver's; default the format to the resolver's
(`if not format`); force `skip_compression` for `parquet`; call the
backend's `_open`; a `None` buffer raises `FileNotFoundError`; wrap
through `_decompress` unless skipping; `assert fout` turns a `None`
result of the decompression layer into an `AssertionError`. -/
def idrOpen {α : Type} (selfFormat : List Char)
    (selfCompression : Option (List Char))
    (backend : List Char → Option (List Char) → List Char → Option (List Char)
      → List Char → Except PyErr (Option α))
    (id : List Char) (suffix : Option (List Char)) (format : Option (List Char))
    (mode : List Char) (skip_compression : Bool)
    (compression : CompressionArg) : Except PyErr (Wrapped α) :=
  if ¬(mode = "rb".toList ∨ mode = "wb".toList) then
    .error (.typeError "Storage backends only support binary writing formats")
  else
    let compression : Option (List Char) := match compression with
      | .dflt => selfCompression
      | .value c => c
    let format : List Char := match format with
      | none => selfFormat
      | some f => if f = [] then selfFormat else f
    let skip_compression : Bool :=
      if format = "parquet".toList then true else skip_compression
    match backend id suffix format compression mode with
    | .error e => .error e
    | .ok none => .error (.fileNotFound "Empty buffer found very late")
    | .ok (some buf) =>
      match (if skip_compression then .ok (some (.raw buf))
             else _decompress (some buf) format compression mode :
             Except PyErr (Option (Wrapped α))) with
      | .error e => .error e
      | .ok none => .error (.assertionError "assert fout")
      | .ok (some fout) => .ok fout

/-- **C10** (confirmed).  For format `json` (not self-framing) and any
compression string other than `bz2`/`gz` (e.g. `snappy`), with the backend
returning a buffer: `_decompress` falls through its `if`/`elif` chain and
returns no stream (`None`), and `open` then fails on `assert fout` with an
`AssertionError` — not a stream and not one of the specified error kinds
(NotFound = `fileNotFound`/`missingData`, Conflict = `conflict`,
Unsupported = `notImplementedError`, Misconfigured = `valueError` /
`typeError`), all of which are distinct constructors from
`assertionError`. -/
theorem C10_unknown_compression_asserts {α : Type} (selfFormat : List Char)
    (selfCompression : Option (List Char))
    (backend : List Char → Option (List Char) → List Char → Option (List Char)
      → List Char → Except PyErr (Option α))
    (id : List Char) (suffix : Option (List Char)) (buf : α) (c : List Char)
    (hc1 : c ≠ "bz2".toList) (hc2 : c ≠ "gz".toList)
    (hb : backend id suffix ("json".toList) (some c) ("rb".toList)
        = .ok (some buf)) :
    _decompress (some buf) ("json".toList) (some c) ("rb".toList) = .ok none
    ∧ idrOpen selfFormat selfCompression backend id suffix
        (some ("json".toList)) ("rb".toList) false (.value (some c))
      = .error (.assertionError "assert fout") := by
  have hdec : _decompress (some buf) ("json".toList) (some c) ("rb".toList)
      = .ok none := by
    simp only [_decompress]
    rw [if_neg (by simp), if_neg (by simpa using hc1),
      if_neg (by simpa using hc2)]
  refine ⟨hdec, ?_⟩
  unfold idrOpen
  rw [if_neg (by simp)]
  show (match backend id suffix ("json".toList) (some c) ("rb".toList) with
    | Except.error e => (Except.error e : Except PyErr (Wrapped α))
    | Except.ok none => Except.error (PyErr.fileNotFound "Empty buffer found very late")
    | Except.ok (some buf) =>
      match (if (false : Bool) = true then Except.ok (some (Wrapped.raw buf))
             else _decompress (some buf) ("json".toList) (some c) ("rb".toList) :
             Except PyErr (Option (Wrapped α))) with
      | Except.error e => Except.error e
      | Except.ok none => Except.error (PyErr.assertionError "assert fout")
      | Except.ok (some fout) => Except.ok fout)
    = Except.error (PyErr.assertionError "assert fout")
  rw [hb]
  show (match (if (false : Bool) = true then Except.ok (some (Wrapped.raw buf))
         else _decompress (some buf) ("json".toList) (some c) ("rb".toList) :
         Except PyErr (Option (Wrapped α))) with
    | Except.error e => (Except.error e : Except PyErr (Wrapped α))
    | Except.ok none => Except.error (PyErr.assertionError "assert fout")
    | Except.ok (some fout) => Except.ok fout)
    = Except.error (PyErr.assertionError "assert fout")
  rw [if_neg (by decide), hdec]

/-- **C10** witness: with compression `snappy` and a backend returning the
buffer `42`, `_decompress` yields no stream and `open` fails with
`AssertionError`. -/
theorem C10_witness :
    ("snappy".toList ≠ "bz2".toList)
    ∧ ("snappy".toList ≠ "gz".toList)
    ∧ _decompress (some (42 : Nat)) ("json".toList) (some ("snappy".toList))
        ("rb".toList) = .ok none
    ∧ idrOpen ("json".toList) (some ("bz2".toList))
        (fun _ _ _ _ _ => .ok (some (42 : Nat))) ("a.b".toList) none
        (some ("json".toList)) ("rb".toList) false
        (.value (some ("snappy".toList)))
      = .error (.assertionError "assert fout") := by
  have h := C10_unknown_compression_asserts ("json".toList)
    (some ("bz2".toList)) (fun _ _ _ _ _ => .ok (some (42 : Nat)))
    ("a.b".toList) none 42 ("snappy".toList) (by decide) (by decide) rfl
  exact ⟨by decide, by decide, h.1, h.2⟩

/-! ## The Ziptree backend (modelled from the spec) -/

/-- Modelled from the spec: the Ziptree backend's write path.  The
`ZiptreeResolver` class is referenced by this repository's tests
(`tests/test_resolvers.py`) but its implementation is not among the
sources, so the write operation is modelled from spec section 4.6: "open
archive in append mode; if `fname` already present among existing members,
raise `Conflict` and leave the archive unmodified; otherwise add member."
An archive is its member list (member name, member bytes), in insertion
order. -/
def ziptreeWrite (archive : List (List Char × List Nat)) (member : List Char)
    (content : List Nat) : Except PyErr (List (List Char × List Nat)) :=
  if member ∈ archive.map Prod.fst then
    .error (.conflict "member already present")
  else .ok (archive ++ [(member, content)])

/-- **C4** (confirmed, against the spec-modelled Ziptree write).  Writing a
fresh member succeeds and appends it; a second write of the same member
(with any content) raises `Conflict` and returns no modified archive, and
the archive resulting from the first write still contains exactly one
member for that name, byte-for-byte the originally written content. -/
theorem C4_ziptree_duplicate_write (archive : List (List Char × List Nat))
    (member : List Char) (b b2 : List Nat)
    (hfresh : member ∉ archive.map Prod.fst) :
    ziptreeWrite archive member b = .ok (archive ++ [(member, b)])
    ∧ ziptreeWrite (archive ++ [(member, b)]) member b2
        = .error (.conflict "member already present")
    ∧ (archive ++ [(member, b)]).filter (fun m => m.1 == member)
        = [(member, b)] := by
  refine ⟨by rw [ziptreeWrite, if_neg hfresh], ?_, ?_⟩
  · rw [ziptreeWrite, if_pos]
    rw [List.map_append, List.mem_append]
    exact Or.inr (by simp)
  · rw [List.filter_append]
    have h1 : archive.filter (fun m => m.1 == member) = [] := by
      rw [List.filter_eq_nil_iff]
      intro m hm hbeq
      exact hfresh (List.mem_map.mpr ⟨m, hm, by simpa using hbeq⟩)
    rw [h1]
    simp

/-- **C4** witness: on the empty archive, writing member `"m"` with bytes
`[1]` succeeds; re-writing `"m"` with `[2]` raises `Conflict`, and the
archive still holds exactly `("m", [1])`. -/
theorem C4_witness :
    ("m".toList ∉ ([] : List (List Char × List Nat)).map Prod.fst)
    ∧ ziptreeWrite [] ("m".toList) [1] = .ok [(("m".toList), [1])]
    ∧ ziptreeWrite [(("m".toList), [1])] ("m".toList) [2]
        = .error (.conflict "member already present")
    ∧ [(("m".toList), [1])].filter (fun m => m.1 == "m".toList)
        = [(("m".toList), [1])] := by
  have h := C4_ziptree_duplicate_write [] ("m".toList) [1] [2] (by decide)
  exact ⟨by decide, h.1, h.2.1, h.2.2⟩

end HtrcFeatures
